import Mathlib

/-!
Verification of the embedding-collection algebra and retrieval engine of the
`whatlies` repository (`whatlies/embeddingset.py`), via a shallow embedding.

Vectors are modelled over `ℚ` (the Python code computes with floats; the
claims under study are order/structure claims, not rounding claims).
A Python `dict` is modelled as an association list in insertion order with
the usual dict invariant (no duplicate keys); updating an existing key keeps
its original position, inserting a new key appends at the end.
-/

namespace Whatlies

/-- Modelled from the spec: a Vector Entity (`whatlies/embedding.py` is not
part of the sources under study; only its use sites are).  `name` is the
display/lookup key, `vector` the fixed-dimension numeric vector, `orig` the
original lookup token before any algebra was applied, `props` the auxiliary
scalar annotations added by `add_property`. -/
structure Embedding where
  name : String
  vector : List ℚ
  orig : String
  props : List (String × String)
deriving DecidableEq, Repr

/-- Dot product of two rational vectors. -/
def dot (a b : List ℚ) : ℚ :=
  (List.zipWith (· * ·) a b).sum

/-- Modelled from the spec: `Add(a, b)` is the vector sum, the result name is
the composed label `"(a.name + b.name)"`, algebra results start with a fresh
empty property set, and the origin traces back to the left operand's
pre-transform identity. -/
def Embedding.add (a b : Embedding) : Embedding :=
  { name := "(" ++ a.name ++ " + " ++ b.name ++ ")"
    vector := List.zipWith (· + ·) a.vector b.vector
    orig := a.orig
    props := [] }

/-- Modelled from the spec: `Subtract(a, b)` is the vector difference with
analogous naming. -/
def Embedding.sub (a b : Embedding) : Embedding :=
  { name := "(" ++ a.name ++ " - " ++ b.name ++ ")"
    vector := List.zipWith (· - ·) a.vector b.vector
    orig := a.orig
    props := [] }

/-- Modelled from the spec: `Orthogonalize(a, b)` (operator `|`) returns
`a - (a·b / b·b) * b`.  The spec's zero-vector guard is a raise in Python;
here rational division by zero yields `0`, which no claim under study
exercises. -/
def Embedding.orth (a b : Embedding) : Embedding :=
  { name := "(" ++ a.name ++ " | " ++ b.name ++ ")"
    vector := List.zipWith (· - ·) a.vector (b.vector.map (fun x => dot a.vector b.vector / dot b.vector b.vector * x))
    orig := a.orig
    props := [] }

/-- Modelled from the spec: `ProjectOnto(a, b)` (operator `>>`) returns
`(a·b / b·b) * b`, with the same zero-vector remark as `Embedding.orth`. -/
def Embedding.proj (a b : Embedding) : Embedding :=
  { name := "(" ++ a.name ++ " >> " ++ b.name ++ ")"
    vector := b.vector.map (fun x => dot a.vector b.vector / dot b.vector b.vector * x)
    orig := a.orig
    props := [] }

/-- Modelled from the spec: `AddProperty` on a single entity returns a new
entity with an additional `propName → fn(entity)` entry; name, vector, origin
and the other properties are preserved. -/
def Embedding.add_property (e : Embedding) (pname : String) (f : Embedding → String) : Embedding :=
  { e with props := e.props ++ [(pname, f e)] }

/-- First-match lookup in an association list (Python `d[k]` / `k in d`;
with the dict invariant the first match is the only one). -/
def dictLookup (d : List (String × Embedding)) (k : String) : Option Embedding :=
  match d with
  | [] => none
  | kv :: rest => if kv.1 = k then some kv.2 else dictLookup rest k

/-- Python dict assignment `d[k] = v`: an existing key keeps its original
position and gets the new value; a new key is appended at the end. -/
def dictInsert (d : List (String × Embedding)) (k : String) (v : Embedding) :
    List (String × Embedding) :=
  match d with
  | [] => [(k, v)]
  | kv :: rest => if kv.1 = k then (k, v) :: rest else kv :: dictInsert rest k v

/-- Building a Python dict from a sequence of key/value pairs
(`{t.name: t for t in embeddings}`): later assignments to the same key win. -/
def dictOfList (l : List (String × Embedding)) : List (String × Embedding) :=
  l.foldl (fun d kv => dictInsert d kv.1 kv.2) []

/-- Python `{**d1, **d2}`: start from `d1` and assign every entry of `d2`
in order. -/
def pyUpdate (d1 d2 : List (String × Embedding)) : List (String × Embedding) :=
  d2.foldl (fun d kv => dictInsert d kv.1 kv.2) d1

/-- The `EmbeddingSet` object state: the collection name and the ordered
name→entity mapping `self.embeddings`. -/
structure EmbeddingSet where
  name : String
  embeddings : List (String × Embedding)
deriving DecidableEq, Repr

/-- `__init__`'s name handling: `if not name: name = "Emb"` — both an absent
name and the (falsy) empty string fall back to `"Emb"`. -/
def resolveName (nm : Option String) : String :=
  match nm with
  | none => "Emb"
  | some s => if s = "" then "Emb" else s

/-- The one-mapping path of `__init__` (`len(embeddings) == 1`, the argument
taken to be the dictionary); every internal construction site
(`EmbeddingSet(new_embeddings, ...)`) goes through this path. -/
def ofDict (d : List (String × Embedding)) (nm : Option String) : EmbeddingSet :=
  { name := resolveName nm, embeddings := d }

/-- A positional constructor argument: Python lets either entities or a
mapping flow into `*embeddings`. -/
inductive CtorArg where
  | ent (e : Embedding)
  | dict (d : List (String × Embedding))
deriving DecidableEq

/-- The entities of a tuple of positional arguments; `none` when a mapping
is among them (its `.name` attribute access would fail). -/
def extractEnts : List CtorArg → Option (List Embedding)
  | [] => some []
  | CtorArg.ent e :: rest => (extractEnts rest).map (fun es => e :: es)
  | CtorArg.dict _ :: _ => none

/-- The `len(embeddings) == 1` path of `__init__`: the single positional
argument is assumed to be a dictionary (source comment: "we assume it is a
dictionary here") and stored as `self.embeddings`; a single `Embedding`
argument therefore does not become a well-formed name→entity mapping —
modelled as an error value. -/
def singleArgInit (a : CtorArg) (nm : Option String) : Except String EmbeddingSet :=
  match a with
  | CtorArg.dict d => Except.ok (ofDict d nm)
  | CtorArg.ent _ => Except.error "a single positional argument is assumed to be a mapping; an Embedding stored here leaves self.embeddings a non-mapping"

/-- `EmbeddingSet.__init__(*embeddings, name=None)`: with exactly one
positional argument, `singleArgInit` on `embeddings[0]`; otherwise the code
assumes a tuple of entities and builds `{t.name: t for t in embeddings}`. -/
def EmbeddingSet.init (args : List CtorArg) (nm : Option String) :
    Except String EmbeddingSet :=
  if args.length = 1 then
    singleArgInit (args.headD (CtorArg.dict [])) nm
  else
    match extractEnts args with
    | some es => Except.ok (ofDict (dictOfList (es.map (fun e => (e.name, e)))) nm)
    | none => Except.error "a mapping among several positional arguments has no name attribute"

/-- `__len__`: `len(self.embeddings.keys())`. -/
def EmbeddingSet.size (s : EmbeddingSet) : ℕ :=
  s.embeddings.length

/-- The keys of the collection in iteration order. -/
def EmbeddingSet.keyList (s : EmbeddingSet) : List String :=
  s.embeddings.map Prod.fst

/-- `to_X`: the matrix whose rows are the member vectors in iteration
order. -/
def EmbeddingSet.to_X (s : EmbeddingSet) : List (List ℚ) :=
  s.embeddings.map (fun kv => kv.2.vector)

/-- `__add__`: `{k: emb + other for k, emb in self.embeddings.items()}` with
the composed collection name. -/
def EmbeddingSet.add (s : EmbeddingSet) (other : Embedding) : EmbeddingSet :=
  ofDict (s.embeddings.map (fun kv => (kv.1, kv.2.add other)))
    (some ("(" ++ s.name ++ " + " ++ other.name ++ ")"))

/-- `__sub__`. -/
def EmbeddingSet.sub (s : EmbeddingSet) (other : Embedding) : EmbeddingSet :=
  ofDict (s.embeddings.map (fun kv => (kv.1, kv.2.sub other)))
    (some ("(" ++ s.name ++ " - " ++ other.name ++ ")"))

/-- `__or__`. -/
def EmbeddingSet.orth (s : EmbeddingSet) (other : Embedding) : EmbeddingSet :=
  ofDict (s.embeddings.map (fun kv => (kv.1, kv.2.orth other)))
    (some ("(" ++ s.name ++ " | " ++ other.name ++ ")"))

/-- `__rshift__`. -/
def EmbeddingSet.proj (s : EmbeddingSet) (other : Embedding) : EmbeddingSet :=
  ofDict (s.embeddings.map (fun kv => (kv.1, kv.2.proj other)))
    (some ("(" ++ s.name ++ " >> " ++ other.name ++ ")"))

/-- `filter`: `EmbeddingSet({k: v for k, v in self.embeddings.items() if func(v)})`
— no name argument is passed. -/
def EmbeddingSet.filter (s : EmbeddingSet) (func : Embedding → Bool) : EmbeddingSet :=
  ofDict (s.embeddings.filter (fun kv => func kv.2)) none

/-- `merge`: `EmbeddingSet({**self.embeddings, **other.embeddings})` — no
name argument is passed. -/
def EmbeddingSet.merge (s other : EmbeddingSet) : EmbeddingSet :=
  ofDict (pyUpdate s.embeddings other.embeddings) none

/-- `add_property`: `EmbeddingSet({k: e.add_property(name, func) ...})` — no
name argument is passed. -/
def EmbeddingSet.add_property (s : EmbeddingSet) (pname : String)
    (f : Embedding → String) : EmbeddingSet :=
  ofDict (s.embeddings.map (fun kv => (kv.1, kv.2.add_property pname f))) none

/-- `", ".join` as used by `__getitem__` for the subset name (the source
joins with `","`). -/
def joinComma (l : List String) : String :=
  match l with
  | [] => ""
  | [x] => x
  | x :: xs => x ++ "," ++ joinComma xs

/-- The error values raised by the modelled methods: `bounds` is the
`ValueError` of `score_similar` reporting both the requested `n` and the
collection size; `missing` is a lookup failure naming the absent key
(the `ValueError` of `score_similar` for an unknown query name, and the
`KeyError` of `__getitem__`). -/
inductive PyErr where
  | bounds (n size : ℕ)
  | missing (key : String)
deriving DecidableEq, Repr

/-- `__getitem__` with a list of names: `{t: self[t] for t in thing}` with the
composed subset name; a missing key raises a lookup error naming it. -/
def EmbeddingSet.getitemList (s : EmbeddingSet) (names : List String) :
    Except PyErr EmbeddingSet :=
  match names.mapM (fun t => (dictLookup s.embeddings t).map (fun e => (t, e))) with
  | some pairs =>
      Except.ok (ofDict (dictOfList pairs) (some (s.name ++ ".subset(" ++ joinComma names ++ ")")))
  | none =>
      match names.find? (fun t => (dictLookup s.embeddings t).isNone) with
      | some t => Except.error (PyErr.missing t)
      | none => Except.error (PyErr.missing "")

/-- `np.mean(x, axis=0)` for a stack of equal-length rows.  For an empty
stack numpy emits a `RuntimeWarning` and yields `NaN` — it does not raise;
`NaN` has no counterpart in `ℚ`, so that outcome is encoded as `none`. -/
def npMeanAxis0 (rows : List (List ℚ)) : Option (List ℚ) :=
  match rows with
  | [] => none
  | r :: rs =>
      some ((List.range r.length).map
        (fun j => ((r :: rs).map (fun row => row.getD j 0)).sum / ((r :: rs).length : ℚ)))

/-- The name resolution of `average`:
`name = f"{self.name}.average()" if not name else name` — both an absent
name and the (falsy) empty string fall back to the composed label. -/
def avgName (s : EmbeddingSet) (nm : Option String) : String :=
  match nm with
  | none => s.name ++ ".average()"
  | some t => if t = "" then s.name ++ ".average()" else t

/-- `average`: vector `np.mean(self.to_X(), axis=0)`.  There is no emptiness
guard in the source: on an empty collection the result is numpy's `NaN`
outcome (`none` here), not an exception.  `Embedding(name, vec)` starts with
origin equal to the name and no properties. -/
def EmbeddingSet.average (s : EmbeddingSet) (nm : Option String) : Option Embedding :=
  (npMeanAxis0 s.to_X).map (fun v =>
    { name := avgName s nm, vector := v, orig := avgName s nm, props := [] })

/-- Python's builtin `sorted(_, key=...)` is a stable sort keyed on the given
key; modelled by insertion sort on the key order, which is stable. -/
def pySortedByKey (key : String × ℚ → ℚ) (l : List (String × ℚ)) : List (String × ℚ) :=
  List.insertionSort (fun a b => key a ≤ key b) l

/-- The query-resolution step of `score_similar`: a string must name a member
(`ValueError` otherwise, naming the key); an entity is used as-is. -/
def resolveQuery (s : EmbeddingSet) (q : Sum String Embedding) : Except PyErr Embedding :=
  match q with
  | Sum.inl t =>
      match dictLookup s.embeddings t with
      | none => Except.error (PyErr.missing t)
      | some e => Except.ok e
  | Sum.inr e => Except.ok e

/-- `self[q]` for a key `q` taken from the collection's own key list (always
present there under the dict invariant; the default is never reached). -/
def getRanked (s : EmbeddingSet) (k : String) : Embedding :=
  (dictLookup s.embeddings k).getD { name := k, vector := [], orig := k, props := [] }

/-- `score_similar(emb, n, metric)`: first the bounds check
(`n > len(self)` raises the `ValueError` reporting `n` and the size), then
query resolution, then `sorted(zip(queries, distances), key=lambda z: z[1])`
truncated to the first `n` and re-packed as `(self[q], d)` pairs.
`pairwise_distances(matrix, vec, metric)` is modelled by applying the
resolved pairwise metric to each row. -/
def EmbeddingSet.score_similar (s : EmbeddingSet) (q : Sum String Embedding)
    (n : ℕ) (metric : List ℚ → List ℚ → ℚ) : Except PyErr (List (Embedding × ℚ)) :=
  if s.size < n then Except.error (PyErr.bounds n s.size)
  else
    match resolveQuery s q with
    | Except.error err => Except.error err
    | Except.ok e =>
        Except.ok
          (((pySortedByKey (fun z => z.2)
              ((s.embeddings.map Prod.fst).zip
                (s.to_X.map (fun row => metric row e.vector)))).take n).map
            (fun z => (getRanked s z.1, z.2)))

/-- Explicit-state reading of a `filter` call: the method returns the new
collection and the body contains no assignment to `self` or its fields, so
the receiver state after the call is the state before it. -/
def filterCall (s : EmbeddingSet) (func : Embedding → Bool) :
    EmbeddingSet × EmbeddingSet :=
  (s.filter func, s)

/-- Explicit-state reading of a `merge` call: result, receiver state after,
argument state after; the body reads `self.embeddings` and
`other.embeddings` and assigns to neither. -/
def mergeCall (s other : EmbeddingSet) :
    EmbeddingSet × EmbeddingSet × EmbeddingSet :=
  (s.merge other, s, other)

/-- Explicit-state reading of an `__add__` call (the lifted algebra
operators all have the same shape): result, receiver state after, operand
entity state after; the body assigns to neither. -/
def addCall (s : EmbeddingSet) (other : Embedding) :
    EmbeddingSet × EmbeddingSet × Embedding :=
  (s.add other, s, other)

/-- Explicit-state reading of an `add_property` call. -/
def addPropertyCall (s : EmbeddingSet) (pname : String) (f : Embedding → String) :
    EmbeddingSet × EmbeddingSet :=
  (s.add_property pname f, s)

/-- Explicit-state reading of a `__getitem__` call with a list of names. -/
def getitemListCall (s : EmbeddingSet) (names : List String) :
    Except PyErr EmbeddingSet × EmbeddingSet :=
  (s.getitemList names, s)

/-! ### Concrete fixtures (used by witnesses and counterexamples) -/

/-- The `foo` entity of the spec's end-to-end scenario. -/
def fooE : Embedding := { name := "foo", vector := [1, 0], orig := "foo", props := [] }

/-- The `bar` entity. -/
def barE : Embedding := { name := "bar", vector := [0, 1], orig := "bar", props := [] }

/-- The `buz` entity. -/
def buzE : Embedding := { name := "buz", vector := [1, 1], orig := "buz", props := [] }

/-- A two-member collection. -/
def S0 : EmbeddingSet := { name := "Emb", embeddings := [("foo", fooE), ("bar", barE)] }

/-- A two-member collection overlapping `S0` on `bar`. -/
def S1 : EmbeddingSet := { name := "Emb", embeddings := [("bar", buzE), ("buz", buzE)] }

/-- The empty collection. -/
def SEmpty : EmbeddingSet := { name := "Emb", embeddings := [] }

/-- A trivial metric (constant zero) for closed instantiations. -/
def zeroMetric : List ℚ → List ℚ → ℚ := fun _ _ => 0

/-! ### Dictionary lemmas -/

lemma dictLookup_mapVal (f : Embedding → Embedding) (l : List (String × Embedding))
    (k : String) :
    dictLookup (l.map (fun kv => (kv.1, f kv.2))) k = (dictLookup l k).map f := by
  induction l with
  | nil => rfl
  | cons kv rest ih =>
      by_cases h : kv.1 = k <;> simp [dictLookup, h, ih]

lemma dictLookup_eq_none_of_not_mem {l : List (String × Embedding)} {k : String}
    (h : k ∉ l.map Prod.fst) : dictLookup l k = none := by
  induction l with
  | nil => rfl
  | cons kv rest ih =>
      simp only [List.map_cons, List.mem_cons] at h
      push_neg at h
      have hk : kv.1 ≠ k := Ne.symm h.1
      simp [dictLookup, hk, ih h.2]

lemma dictLookup_of_mem_nodup {l : List (String × Embedding)} {k : String} {v : Embedding}
    (hnd : (l.map Prod.fst).Nodup) (hmem : (k, v) ∈ l) : dictLookup l k = some v := by
  induction l with
  | nil => simp at hmem
  | cons kv rest ih =>
      simp only [List.map_cons, List.nodup_cons] at hnd
      rcases List.mem_cons.mp hmem with h | h
      · subst h
        simp [dictLookup]
      · have hk : kv.1 ≠ k := by
          intro he
          exact hnd.1 (he ▸ (List.mem_map.mpr ⟨(k, v), h, rfl⟩))
        simp [dictLookup, hk, ih hnd.2 h]

lemma append_ne_empty_right (a b : String) (hb : b.length ≠ 0) : a ++ b ≠ "" := by
  intro h
  have hl : (a ++ b).length = ("" : String).length := congrArg String.length h
  rw [String.length_append] at hl
  have h0 : ("" : String).length = 0 := rfl
  omega

lemma resolveName_of_ne_empty {t : String} (h : t ≠ "") : resolveName (some t) = t := by
  simp [resolveName, h]

lemma keyList_mapVal (s : EmbeddingSet) (f : Embedding → Embedding) (nm : Option String) :
    (ofDict (s.embeddings.map (fun kv => (kv.1, f kv.2))) nm).keyList = s.keyList := by
  simp only [EmbeddingSet.keyList, ofDict, List.map_map]
  rfl

lemma liftedOp_spec (s : EmbeddingSet) (f : Embedding → Embedding) (t : String)
    (ht : t ≠ "") :
    (ofDict (s.embeddings.map (fun kv => (kv.1, f kv.2))) (some t)).name = t ∧
    (ofDict (s.embeddings.map (fun kv => (kv.1, f kv.2))) (some t)).keyList = s.keyList ∧
    ∀ k, dictLookup (ofDict (s.embeddings.map (fun kv => (kv.1, f kv.2))) (some t)).embeddings k
        = (dictLookup s.embeddings k).map f :=
  ⟨resolveName_of_ne_empty ht, keyList_mapVal s f (some t),
   fun k => dictLookup_mapVal f s.embeddings k⟩

lemma mem_keys_of_dictLookup {d : List (String × Embedding)} {k : String} {v : Embedding}
    (h : dictLookup d k = some v) : k ∈ d.map Prod.fst := by
  induction d with
  | nil => simp [dictLookup] at h
  | cons kv rest ih =>
      rw [dictLookup] at h
      by_cases hk : kv.1 = k
      · simp [hk]
      · rw [if_neg hk] at h
        simp [ih h]

lemma exists_dictLookup_of_mem_keys {d : List (String × Embedding)} {k : String}
    (h : k ∈ d.map Prod.fst) : ∃ v, dictLookup d k = some v := by
  induction d with
  | nil => simp at h
  | cons kv rest ih =>
      by_cases hk : kv.1 = k
      · exact ⟨kv.2, by simp [dictLookup, hk]⟩
      · rw [List.map_cons, List.mem_cons] at h
        rcases h with h | h
        · exact absurd h.symm hk
        · rcases ih h with ⟨v, hv⟩
          exact ⟨v, by simp [dictLookup, hk, hv]⟩

lemma keys_dictInsert (d : List (String × Embedding)) (k : String) (v : Embedding) :
    (dictInsert d k v).map Prod.fst =
      if k ∈ d.map Prod.fst then d.map Prod.fst else d.map Prod.fst ++ [k] := by
  induction d with
  | nil => simp [dictInsert]
  | cons kv rest ih =>
      rw [dictInsert]
      by_cases hk : kv.1 = k
      · simp [hk]
      · have hk2 : ¬ k = kv.1 := fun he => hk he.symm
        rw [if_neg hk]
        by_cases hmem : k ∈ rest.map Prod.fst
        · simp [ih, hmem, hk2]
        · simp [ih, hmem, hk2]

lemma dictLookup_dictInsert_self (d : List (String × Embedding)) (k : String) (v : Embedding) :
    dictLookup (dictInsert d k v) k = some v := by
  induction d with
  | nil =>
      rw [dictInsert, dictLookup, if_pos rfl]
  | cons kv rest ih =>
      rw [dictInsert]
      by_cases hk : kv.1 = k
      · rw [if_pos hk, dictLookup, if_pos rfl]
      · rw [if_neg hk, dictLookup, if_neg hk]
        exact ih

lemma dictLookup_dictInsert_ne (d : List (String × Embedding)) (k : String) (v : Embedding)
    (k' : String) (h : k' ≠ k) :
    dictLookup (dictInsert d k v) k' = dictLookup d k' := by
  have h1 : ¬ k = k' := fun he => h he.symm
  induction d with
  | nil =>
      simp [dictInsert, dictLookup, h1]
  | cons kv rest ih =>
      rw [dictInsert]
      by_cases hk : kv.1 = k
      · have h2 : ¬ kv.1 = k' := by rw [hk]; exact h1
        rw [if_pos hk, dictLookup, if_neg h1, dictLookup, if_neg h2]
      · rw [if_neg hk]
        by_cases hk' : kv.1 = k'
        · rw [dictLookup, if_pos hk', dictLookup, if_pos hk']
        · rw [dictLookup, if_neg hk', dictLookup, if_neg hk']
          exact ih

lemma pyUpdate_cons (d1 : List (String × Embedding)) (kv : String × Embedding)
    (rest : List (String × Embedding)) :
    pyUpdate d1 (kv :: rest) = pyUpdate (dictInsert d1 kv.1 kv.2) rest := rfl

lemma dictLookup_pyUpdate (d1 d2 : List (String × Embedding))
    (hnd2 : (d2.map Prod.fst).Nodup) (k : String) :
    dictLookup (pyUpdate d1 d2) k =
      match dictLookup d2 k with
      | some v => some v
      | none => dictLookup d1 k := by
  induction d2 generalizing d1 with
  | nil => rfl
  | cons kv rest ih =>
      rw [List.map_cons, List.nodup_cons] at hnd2
      rw [pyUpdate_cons, ih _ hnd2.2]
      rw [dictLookup]
      by_cases hk : kv.1 = k
      · rw [if_pos hk]
        have hrest : dictLookup rest k = none := by
          cases hcase : dictLookup rest k with
          | none => rfl
          | some v =>
              exact absurd (hk ▸ mem_keys_of_dictLookup hcase) hnd2.1
        rw [hrest, hk]
        simp [dictLookup_dictInsert_self]
      · rw [if_neg hk]
        cases hcase : dictLookup rest k with
        | some v => rfl
        | none =>
            simp only
            exact dictLookup_dictInsert_ne d1 kv.1 kv.2 k (fun he => hk he.symm)

lemma keys_pyUpdate (d1 d2 : List (String × Embedding))
    (hnd2 : (d2.map Prod.fst).Nodup) :
    (pyUpdate d1 d2).map Prod.fst =
      d1.map Prod.fst ++
        (d2.map Prod.fst).filter (fun k => decide (k ∉ d1.map Prod.fst)) := by
  induction d2 generalizing d1 with
  | nil => simp [pyUpdate]
  | cons kv rest ih =>
      rw [List.map_cons, List.nodup_cons] at hnd2
      rw [pyUpdate_cons, ih _ hnd2.2, keys_dictInsert]
      by_cases hmem : kv.1 ∈ d1.map Prod.fst
      · rw [if_pos hmem, List.map_cons, List.filter_cons]
        simp [hmem]
      · rw [if_neg hmem, List.map_cons, List.filter_cons]
        simp only [hmem, not_false_eq_true, decide_not, Bool.not_eq_true', if_pos,
          List.append_assoc, List.singleton_append]
        simp [hmem]
        apply List.filter_congr
        intro x hx
        have hxne : x ≠ kv.1 := fun he => hnd2.1 (he ▸ hx)
        simp [hxne]

/-! ### Stability of the key-based sort -/

lemma filter_orderedInsert_of_key_eq {α : Type} (f : α → ℚ) (c : ℚ) (x : α) (l : List α)
    (hx : f x = c) :
    (List.orderedInsert (fun a b => f a ≤ f b) x l).filter (fun a => decide (f a = c))
      = x :: l.filter (fun a => decide (f a = c)) := by
  induction l with
  | nil => simp [List.orderedInsert, hx]
  | cons y ys ih =>
      rw [List.orderedInsert]
      by_cases hr : f x ≤ f y
      · rw [if_pos hr]
        simp [List.filter_cons, hx]
      · rw [if_neg hr]
        have hy : ¬ f y = c := by
          intro he
          apply hr
          rw [hx, ← he]
        simp [List.filter_cons, hy, ih]

lemma filter_orderedInsert_of_key_ne {α : Type} (f : α → ℚ) (c : ℚ) (x : α) (l : List α)
    (hx : ¬ f x = c) :
    (List.orderedInsert (fun a b => f a ≤ f b) x l).filter (fun a => decide (f a = c))
      = l.filter (fun a => decide (f a = c)) := by
  induction l with
  | nil => simp [List.orderedInsert, hx]
  | cons y ys ih =>
      rw [List.orderedInsert]
      by_cases hr : f x ≤ f y
      · rw [if_pos hr]
        simp [List.filter_cons, hx]
      · rw [if_neg hr]
        simp [List.filter_cons, ih]

lemma filter_insertionSort_key {α : Type} (f : α → ℚ) (c : ℚ) (l : List α) :
    (List.insertionSort (fun a b => f a ≤ f b) l).filter (fun a => decide (f a = c))
      = l.filter (fun a => decide (f a = c)) := by
  induction l with
  | nil => rfl
  | cons a as ih =>
      rw [List.insertionSort]
      by_cases ha : f a = c
      · rw [filter_orderedInsert_of_key_eq f c a _ ha, ih, List.filter_cons]
        simp [ha]
      · rw [filter_orderedInsert_of_key_ne f c a _ ha, ih, List.filter_cons]
        simp [ha]

lemma filter_pySortedByKey (c : ℚ) (l : List (String × ℚ)) :
    (pySortedByKey (fun z => z.2) l).filter (fun z => decide (z.2 = c))
      = l.filter (fun z => decide (z.2 = c)) :=
  filter_insertionSort_key (fun z : String × ℚ => z.2) c l

/-- The sorted-truncated-mapped pipeline of `score_similar`: length `n`,
ascending in the distance component, drawn from the original list, and on
every distance value a prefix (in original order) of the original list's
entries with that distance — the characterization of a stable top-`n`
selection keyed purely on distance. -/
lemma stable_topn (l : List (String × ℚ)) (n : ℕ) (G : String × ℚ → Embedding × ℚ)
    (hsnd : ∀ z, (G z).2 = z.2) (hn : n ≤ l.length) :
    (((pySortedByKey (fun z => z.2) l).take n).map G).length = n ∧
    (((pySortedByKey (fun z => z.2) l).take n).map G).Pairwise (fun a b => a.2 ≤ b.2) ∧
    (∀ p ∈ ((pySortedByKey (fun z => z.2) l).take n).map G, p ∈ l.map G) ∧
    (∀ c : ℚ, ∃ t2, (l.map G).filter (fun z => decide (z.2 = c))
        = ((((pySortedByKey (fun z => z.2) l).take n).map G).filter
            (fun z => decide (z.2 = c))) ++ t2) := by
  have hperm : (pySortedByKey (fun z => z.2) l).Perm l := List.perm_insertionSort _ l
  have hlen : (pySortedByKey (fun z => z.2) l).length = l.length := hperm.length_eq
  refine ⟨?_, ?_, ?_, ?_⟩
  · rw [List.length_map, List.length_take, hlen]
    omega
  · have hsort : List.Sorted (fun a b : String × ℚ => a.2 ≤ b.2)
        (pySortedByKey (fun z => z.2) l) := by
      haveI h1 : IsTotal (String × ℚ) (fun a b => a.2 ≤ b.2) :=
        ⟨fun a b => le_total a.2 b.2⟩
      haveI h2 : IsTrans (String × ℚ) (fun a b => a.2 ≤ b.2) :=
        ⟨fun a b c hab hbc => le_trans hab hbc⟩
      exact List.sorted_insertionSort _ l
    have htake : ((pySortedByKey (fun z => z.2) l).take n).Pairwise
        (fun a b : String × ℚ => a.2 ≤ b.2) :=
      hsort.sublist (List.take_sublist n _)
    rw [List.pairwise_map]
    exact htake.imp (fun hab => by rw [hsnd, hsnd]; exact hab)
  · intro p hp
    obtain ⟨z, hz, rfl⟩ := List.mem_map.mp hp
    exact List.mem_map.mpr
      ⟨z, hperm.mem_iff.mp ((List.take_sublist n _).subset hz), rfl⟩
  · intro c
    have hcomp : ((fun z : Embedding × ℚ => decide (z.2 = c)) ∘ G)
        = (fun z : String × ℚ => decide (z.2 = c)) := by
      funext z
      simp [Function.comp, hsnd z]
    have key1 : ∀ m : List (String × ℚ),
        ((m.map G).filter (fun z => decide (z.2 = c)))
          = (m.filter (fun z => decide (z.2 = c))).map G := by
      intro m
      rw [List.filter_map, hcomp]
    refine ⟨(((pySortedByKey (fun z => z.2) l).drop n).filter
        (fun z => decide (z.2 = c))).map G, ?_⟩
    rw [key1 l, key1 ((pySortedByKey (fun z => z.2) l).take n)]
    rw [← List.map_append, ← List.filter_append, List.take_append_drop,
      filter_pySortedByKey]

/-! ### Claim theorems -/

/-- C6: `Filter(C, predicate)` returns a collection containing exactly the
members satisfying the predicate — every retained entry satisfies it, every
entry of `C` satisfying it is retained — and the retained entries form a
sublist of `C`'s entries, i.e. they keep their original relative order. -/
theorem filter_exact_and_order_preserving (s : EmbeddingSet) (func : Embedding → Bool) :
    (∀ kv ∈ (s.filter func).embeddings, func kv.2 = true) ∧
    ((s.filter func).embeddings.Sublist s.embeddings) ∧
    (∀ kv ∈ s.embeddings, func kv.2 = true → kv ∈ (s.filter func).embeddings) := by
  refine ⟨?_, ?_, ?_⟩
  · intro kv hkv
    exact (List.mem_filter.mp hkv).2
  · exact List.filter_sublist s.embeddings
  · intro kv hkv hfunc
    exact List.mem_filter.mpr ⟨hkv, hfunc⟩

/-- Closed instantiation of `filter_exact_and_order_preserving` discharging
its membership hypotheses at a concrete collection and predicate. -/
theorem filter_exact_and_order_preserving_witness :
    ((fun e => e.name ≠ "foo" : Embedding → Bool) barE = true) ∧
    (("bar", barE) ∈ (S0.filter (fun e => e.name ≠ "foo")).embeddings) :=
  ⟨(filter_exact_and_order_preserving S0 (fun e => e.name ≠ "foo")).1 ("bar", barE)
      (by decide),
   (filter_exact_and_order_preserving S0 (fun e => e.name ≠ "foo")).2.2 ("bar", barE)
      (by decide) (by decide)⟩

/-- C7: each lifted binary operator (add, subtract, orthogonalize,
project-onto) keeps the key list (hence the iteration order) of `C`, maps
every member independently against the one fixed right-hand operand
(`lookup (C op e) k = Op (lookup C k) e`, never pairwise between members),
and names the result with the composed label of `C`'s name and
`other.name`. -/
theorem lifted_operators_broadcast (s : EmbeddingSet) (other : Embedding) :
    ((s.add other).name = "(" ++ s.name ++ " + " ++ other.name ++ ")" ∧
     (s.add other).keyList = s.keyList ∧
     ∀ k, dictLookup (s.add other).embeddings k
        = (dictLookup s.embeddings k).map (fun e => e.add other)) ∧
    ((s.sub other).name = "(" ++ s.name ++ " - " ++ other.name ++ ")" ∧
     (s.sub other).keyList = s.keyList ∧
     ∀ k, dictLookup (s.sub other).embeddings k
        = (dictLookup s.embeddings k).map (fun e => e.sub other)) ∧
    ((s.orth other).name = "(" ++ s.name ++ " | " ++ other.name ++ ")" ∧
     (s.orth other).keyList = s.keyList ∧
     ∀ k, dictLookup (s.orth other).embeddings k
        = (dictLookup s.embeddings k).map (fun e => e.orth other)) ∧
    ((s.proj other).name = "(" ++ s.name ++ " >> " ++ other.name ++ ")" ∧
     (s.proj other).keyList = s.keyList ∧
     ∀ k, dictLookup (s.proj other).embeddings k
        = (dictLookup s.embeddings k).map (fun e => e.proj other)) := by
  have hne : ∀ a : String, a ++ ")" ≠ "" :=
    fun a => append_ne_empty_right a ")" (by decide)
  exact ⟨liftedOp_spec s (fun e => e.add other) _ (hne _),
         liftedOp_spec s (fun e => e.sub other) _ (hne _),
         liftedOp_spec s (fun e => e.orth other) _ (hne _),
         liftedOp_spec s (fun e => e.proj other) _ (hne _)⟩

lemma extractEnts_map_ent (l : List Embedding) :
    extractEnts (l.map CtorArg.ent) = some l := by
  induction l with
  | nil => rfl
  | cons e es ih => simp [extractEnts, ih]

/-- Counterexample to C8 as stated: a variadic sequence of exactly one
Vector Entity does not produce the mapping keyed by the entity's name — the
constructor assumes a single positional argument is the mapping itself
(source comment: "we assume it is a dictionary here"), so no well-formed
collection results. -/
theorem init_single_entity_counterexample :
    EmbeddingSet.init [CtorArg.ent fooE] none
        = Except.error "a single positional argument is assumed to be a mapping; an Embedding stored here leaves self.embeddings a non-mapping" ∧
    EmbeddingSet.init [CtorArg.ent fooE] none
        ≠ Except.ok (ofDict [(fooE.name, fooE)] none) := by
  refine ⟨rfl, fun h => ?_⟩
  exact Except.noConfusion h

/-- C8 (amended): the constructor builds the entries mapping keyed by each
entity's own name from a variadic sequence of Vector Entities of any length
other than exactly one, and accepts a single name→Vector-Entity mapping
directly (a single positional argument is assumed to be the mapping
form). -/
theorem init_variadic_and_dict (l : List Embedding) (nm : Option String)
    (h : l.length ≠ 1) (d : List (String × Embedding)) :
    EmbeddingSet.init (l.map CtorArg.ent) nm
        = Except.ok (ofDict (dictOfList (l.map (fun e => (e.name, e)))) nm) ∧
    EmbeddingSet.init [CtorArg.dict d] nm = Except.ok (ofDict d nm) := by
  constructor
  · have hlen : (l.map CtorArg.ent).length = l.length := List.length_map l CtorArg.ent
    rw [EmbeddingSet.init, if_neg (by rw [hlen]; exact h), extractEnts_map_ent l]
  · rfl

/-- Closed instantiation of `init_variadic_and_dict` at a two-entity
sequence and a concrete mapping. -/
theorem init_variadic_and_dict_witness :
    EmbeddingSet.init ([fooE, barE].map CtorArg.ent) none
        = Except.ok (ofDict (dictOfList ([fooE, barE].map (fun e => (e.name, e)))) none) ∧
    EmbeddingSet.init [CtorArg.dict [("foo", fooE)]] none
        = Except.ok (ofDict [("foo", fooE)] none) :=
  init_variadic_and_dict [fooE, barE] none (by decide) [("foo", fooE)]

/-- C1: with all members of dimension `d`, a resolvable query (an entity, or
a name present in the collection — exactly the cases where `resolveQuery`
succeeds), and `n ≤ len(C)`, `score_similar` returns exactly `n`
(entity, distance) pairs: ascending in distance, each drawn from the
member/distance pairs of the collection, and — for every distance value —
forming a prefix, in the collection's original iteration order, of the
members at that distance (the stable-sort tie-breaking, keyed purely on
distance). -/
theorem score_similar_sorted_stable_topn
    (s : EmbeddingSet) (q : Sum String Embedding) (n d : ℕ)
    (metric : List ℚ → List ℚ → ℚ) (e : Embedding)
    (hnd : s.keyList.Nodup)
    (hd : ∀ kv ∈ s.embeddings, kv.2.vector.length = d)
    (hq : resolveQuery s q = Except.ok e)
    (hn : n ≤ s.size) :
    ∃ r : List (Embedding × ℚ),
      s.score_similar q n metric = Except.ok r ∧
      r.length = n ∧
      r.Pairwise (fun a b => a.2 ≤ b.2) ∧
      (∀ p ∈ r, p ∈ s.embeddings.map (fun kv => (kv.2, metric kv.2.vector e.vector))) ∧
      (∀ c : ℚ, ∃ t2,
        (s.embeddings.map (fun kv => (kv.2, metric kv.2.vector e.vector))).filter
            (fun z => decide (z.2 = c))
          = (r.filter (fun z => decide (z.2 = c))) ++ t2) := by
  have hnlt : ¬ s.size < n := not_lt.mpr hn
  have hpairs : (s.embeddings.map Prod.fst).zip (s.to_X.map (fun row => metric row e.vector))
      = s.embeddings.map (fun kv => (kv.1, metric kv.2.vector e.vector)) := by
    rw [EmbeddingSet.to_X, List.map_map]
    exact List.zip_map' _ _ _
  have hstep : s.score_similar q n metric
      = Except.ok (((pySortedByKey (fun z => z.2)
            ((s.embeddings.map Prod.fst).zip
              (s.to_X.map (fun row => metric row e.vector)))).take n).map
          (fun z => (getRanked s z.1, z.2))) := by
    rw [EmbeddingSet.score_similar, if_neg hnlt, hq]
  rw [hpairs] at hstep
  have hG : ∀ kv ∈ s.embeddings,
      ((fun z : String × ℚ => (getRanked s z.1, z.2)) ∘
        (fun kv : String × Embedding => (kv.1, metric kv.2.vector e.vector))) kv
        = (kv.2, metric kv.2.vector e.vector) := by
    intro kv hkv
    have hl : dictLookup s.embeddings kv.1 = some kv.2 :=
      dictLookup_of_mem_nodup hnd hkv
    simp [Function.comp, getRanked, hl]
  have hmapG : (s.embeddings.map (fun kv => (kv.1, metric kv.2.vector e.vector))).map
        (fun z : String × ℚ => (getRanked s z.1, z.2))
      = s.embeddings.map (fun kv => (kv.2, metric kv.2.vector e.vector)) := by
    rw [List.map_map]
    exact List.map_congr_left hG
  obtain ⟨h1, h2, h3, h4⟩ := stable_topn
    (s.embeddings.map (fun kv => (kv.1, metric kv.2.vector e.vector))) n
    (fun z => (getRanked s z.1, z.2)) (fun z => rfl)
    (by rw [List.length_map]; exact hn)
  rw [hmapG] at h3 h4
  exact ⟨_, hstep, h1, h2, h3, h4⟩

/-- Closed instantiation of `score_similar_sorted_stable_topn` at a concrete
two-member collection with `n = 2` and a constant metric (so the two
distances tie and the stable order is exercised). -/
theorem score_similar_sorted_stable_topn_witness :
    ∃ r : List (Embedding × ℚ),
      S0.score_similar (Sum.inl "foo") 2 zeroMetric = Except.ok r ∧
      r.length = 2 ∧
      r.Pairwise (fun a b => a.2 ≤ b.2) ∧
      (∀ p ∈ r, p ∈ S0.embeddings.map (fun kv => (kv.2, zeroMetric kv.2.vector fooE.vector))) ∧
      (∀ c : ℚ, ∃ t2,
        (S0.embeddings.map (fun kv => (kv.2, zeroMetric kv.2.vector fooE.vector))).filter
            (fun z => decide (z.2 = c))
          = (r.filter (fun z => decide (z.2 = c))) ++ t2) :=
  score_similar_sorted_stable_topn S0 (Sum.inl "foo") 2 2 zeroMetric fooE
    (by decide) (by decide) rfl (by decide)

/-- C2 (amended): `score_similar` raises the bounds `ValueError` — reporting
both `n` and the collection size — whenever `n > len(C)` (never truncating),
and raises the lookup `ValueError` naming the missing key whenever the query
is an absent name and `n ≤ len(C)` (the bounds check runs first). -/
theorem score_similar_bounds_and_lookup_errors :
    (∀ (s : EmbeddingSet) (q : Sum String Embedding) (n : ℕ)
        (metric : List ℚ → List ℚ → ℚ),
      s.size < n → s.score_similar q n metric = Except.error (PyErr.bounds n s.size)) ∧
    (∀ (s : EmbeddingSet) (t : String) (n : ℕ) (metric : List ℚ → List ℚ → ℚ),
      n ≤ s.size → t ∉ s.keyList →
      s.score_similar (Sum.inl t) n metric = Except.error (PyErr.missing t)) := by
  constructor
  · intro s q n metric hlt
    rw [EmbeddingSet.score_similar, if_pos hlt]
  · intro s t n metric hn hmem
    have hnlt : ¬ s.size < n := not_lt.mpr hn
    rw [EmbeddingSet.score_similar, if_neg hnlt, resolveQuery,
      dictLookup_eq_none_of_not_mem hmem]

/-- Closed instantiation of `score_similar_bounds_and_lookup_errors`: the
bounds error on an empty collection with `n = 1`, and the lookup error for
an absent name with a valid `n`. -/
theorem score_similar_bounds_and_lookup_errors_witness :
    SEmpty.score_similar (Sum.inl "foo") 1 zeroMetric
        = Except.error (PyErr.bounds 1 SEmpty.size) ∧
    S0.score_similar (Sum.inl "nope") 1 zeroMetric
        = Except.error (PyErr.missing "nope") :=
  ⟨score_similar_bounds_and_lookup_errors.1 SEmpty (Sum.inl "foo") 1 zeroMetric
      (by decide),
   score_similar_bounds_and_lookup_errors.2 S0 "nope" 1 zeroMetric
      (by decide) (by decide)⟩

/-- Counterexample to C2 as stated: when the query is an absent name *and*
`n` exceeds the collection size, the code raises the bounds error, not a
lookup error naming the missing key — the bounds check runs first. -/
theorem score_similar_missing_key_bounds_first_counterexample :
    SEmpty.score_similar (Sum.inl "foo") 1 zeroMetric
        = Except.error (PyErr.bounds 1 0) ∧
    SEmpty.score_similar (Sum.inl "foo") 1 zeroMetric
        ≠ Except.error (PyErr.missing "foo") := by
  refine ⟨rfl, fun h => ?_⟩
  have h2 : PyErr.bounds 1 0 = PyErr.missing "foo" := Except.error.inj h
  exact PyErr.noConfusion h2

/-- C3: on an empty collection `average` does not raise: the source has no
emptiness guard, `np.mean` over the empty matrix yields the NaN outcome
(`none` in this model, where `Option` — with no error channel at all — is
the return type precisely because the method cannot raise). -/
theorem average_of_empty_is_nan_not_error : SEmpty.average none = none := rfl

/-- C4 (amended): on a non-empty collection of members of equal dimension
`d`, `average` returns an entity whose vector is the coordinate-wise
arithmetic mean of the members' vectors, and whose name is the supplied name
when a non-empty name is supplied and otherwise the composed label
`"<C.name>.average()"`. -/
theorem average_mean_and_name (s : EmbeddingSet) (nm : Option String) (d : ℕ)
    (hne : s.embeddings ≠ [])
    (hd : ∀ kv ∈ s.embeddings, kv.2.vector.length = d) :
    ∃ e : Embedding, s.average nm = some e ∧
      e.vector.length = d ∧
      (∀ j, j < d → e.vector.getD j 0
          = (s.embeddings.map (fun kv => kv.2.vector.getD j 0)).sum / (s.size : ℚ)) ∧
      (∀ t, nm = some t → t ≠ "" → e.name = t) ∧
      ((nm = none ∨ nm = some "") → e.name = s.name ++ ".average()") := by
  obtain ⟨kv, rest, hE⟩ : ∃ kv rest, s.embeddings = kv :: rest := by
    cases hcase : s.embeddings with
    | nil => exact absurd hcase hne
    | cons a b => exact ⟨a, b, rfl⟩
  have hhead : kv ∈ s.embeddings := by rw [hE]; exact List.mem_cons_self kv rest
  have hdkv : kv.2.vector.length = d := hd kv hhead
  have hX : s.to_X = kv.2.vector :: rest.map (fun kv2 => kv2.2.vector) := by
    rw [EmbeddingSet.to_X, hE, List.map_cons]
  have hlenX : s.to_X.length = s.size := by
    rw [EmbeddingSet.to_X, List.length_map]
    rfl
  have hv : npMeanAxis0 s.to_X = some ((List.range d).map
      (fun j => (s.to_X.map (fun row => row.getD j 0)).sum / (s.size : ℚ))) := by
    rw [hX, npMeanAxis0, hdkv, ← hX, hlenX]
  refine ⟨_, by rw [EmbeddingSet.average, hv]; rfl, ?_, ?_, ?_, ?_⟩
  · simp
  · intro j hj
    show ((List.range d).map
        (fun j => (s.to_X.map (fun row => row.getD j 0)).sum / (s.size : ℚ))).getD j 0
      = (s.embeddings.map (fun kv2 => kv2.2.vector.getD j 0)).sum / (s.size : ℚ)
    rw [List.getD_eq_getElem?_getD, List.getElem?_map, List.getElem?_range hj]
    show (s.to_X.map (fun row => row.getD j 0)).sum / (s.size : ℚ) = _
    rw [EmbeddingSet.to_X, List.map_map]
    rfl
  · intro t ht hne2
    show avgName s nm = t
    rw [ht, avgName, if_neg hne2]
  · intro hcase
    show avgName s nm = s.name ++ ".average()"
    rcases hcase with h | h <;> rw [h, avgName]
    rw [if_pos rfl]

/-- Closed instantiation of `average_mean_and_name` at a concrete two-member
collection with a supplied non-empty name. -/
theorem average_mean_and_name_witness :
    ∃ e : Embedding, S0.average (some "the-average") = some e ∧
      e.vector.length = 2 ∧
      (∀ j, j < 2 → e.vector.getD j 0
          = (S0.embeddings.map (fun kv => kv.2.vector.getD j 0)).sum / (S0.size : ℚ)) ∧
      (∀ t, (some "the-average" : Option String) = some t → t ≠ "" → e.name = t) ∧
      (((some "the-average" : Option String) = none ∨
          (some "the-average" : Option String) = some "") →
        e.name = S0.name ++ ".average()") :=
  average_mean_and_name S0 (some "the-average") 2 (by decide) (by decide)

/-- Counterexample to C4 as stated: supplying the (falsy) empty string as
the name does not make it the result's name — the code falls back to the
composed label. -/
theorem average_empty_string_name_counterexample :
    (S0.average (some "")).map Embedding.name = some "Emb.average()" ∧
    ("Emb.average()" : String) ≠ "" := by
  constructor
  · rfl
  · decide

/-- C5: `Merge(C1, C2)` is right-biased — on every key present in both
collections the merged collection looks up `C2`'s entry — and its size is
the cardinality of the union of the two key sets. -/
theorem merge_right_bias_and_union_size (c1 c2 : EmbeddingSet)
    (h1 : c1.keyList.Nodup) (h2 : c2.keyList.Nodup) :
    (∀ k, k ∈ c1.keyList → k ∈ c2.keyList →
        dictLookup (c1.merge c2).embeddings k = dictLookup c2.embeddings k) ∧
    (c1.merge c2).size = (c1.keyList.toFinset ∪ c2.keyList.toFinset).card := by
  have hemb : (c1.merge c2).embeddings = pyUpdate c1.embeddings c2.embeddings := rfl
  constructor
  · intro k hk1 hk2
    rw [hemb, dictLookup_pyUpdate c1.embeddings c2.embeddings h2 k]
    obtain ⟨v, hv⟩ := exists_dictLookup_of_mem_keys (d := c2.embeddings) hk2
    rw [hv]
  · have hkeys : (pyUpdate c1.embeddings c2.embeddings).map Prod.fst
        = c1.keyList ++ c2.keyList.filter (fun k => decide (k ∉ c1.keyList)) :=
      keys_pyUpdate c1.embeddings c2.embeddings h2
    have hnd : (c1.keyList ++ c2.keyList.filter (fun k => decide (k ∉ c1.keyList))).Nodup := by
      rw [List.nodup_append]
      refine ⟨h1, h2.filter _, ?_⟩
      intro x hx hx2
      have hq := (List.mem_filter.mp hx2).2
      simp at hq
      exact hq hx
    have hsize : (c1.merge c2).size
        = (c1.keyList ++ c2.keyList.filter (fun k => decide (k ∉ c1.keyList))).length := by
      have hlen : (c1.merge c2).size = ((c1.merge c2).embeddings.map Prod.fst).length := by
        rw [List.length_map]
        rfl
      rw [hlen, hemb, hkeys]
    rw [hsize, ← List.toFinset_card_of_nodup hnd]
    congr 1
    ext x
    simp [List.mem_filter]
    tauto

/-- Closed instantiation of `merge_right_bias_and_union_size` at two concrete
overlapping collections. -/
theorem merge_right_bias_and_union_size_witness :
    dictLookup (S0.merge S1).embeddings "bar" = dictLookup S1.embeddings "bar" ∧
    (S0.merge S1).size = (S0.keyList.toFinset ∪ S1.keyList.toFinset).card :=
  ⟨(merge_right_bias_and_union_size S0 S1 (by decide) (by decide)).1 "bar"
      (by decide) (by decide),
   (merge_right_bias_and_union_size S0 S1 (by decide) (by decide)).2⟩

/-- C9: no transformation mutates its receiver or its arguments: in the
explicit-state reading of each method call (lifted algebra, filter, merge,
subset by a list of names, add-property) the receiver state after the call —
and the argument state, where there is one — equals the state before it,
while the method's value is a freshly constructed collection. -/
theorem transforms_leave_originals_unchanged (s other : EmbeddingSet)
    (e : Embedding) (func : Embedding → Bool) (pname : String)
    (f : Embedding → String) (names : List String) :
    (filterCall s func).2 = s ∧
    (mergeCall s other).2.1 = s ∧ (mergeCall s other).2.2 = other ∧
    (addCall s e).2.1 = s ∧ (addCall s e).2.2 = e ∧
    (addPropertyCall s pname f).2 = s ∧
    (getitemListCall s names).2 = s :=
  ⟨rfl, rfl, rfl, rfl, rfl, rfl, rfl⟩

/-- C10: `filter`, `merge` and `add_property` construct their result without
passing a name, so the result always carries the default collection name
`"Emb"`, whatever the source collection was called. -/
theorem filter_merge_add_property_default_name (s other : EmbeddingSet)
    (func : Embedding → Bool) (pname : String) (f : Embedding → String) :
    (s.filter func).name = "Emb" ∧
    (s.merge other).name = "Emb" ∧
    (s.add_property pname f).name = "Emb" :=
  ⟨rfl, rfl, rfl⟩

end Whatlies
